import Mathlib

/-!
Verification development for the Session Forge remote-orchestration core
(`src/sf`).  The Python sources are embedded shallowly: pure helpers become
Lean functions, remote commands and the git/state collaborators become
explicit oracle parameters, exceptions become `Except String`.
-/

namespace SessionForge

/-! ### Python string primitives

`str.strip`, `str.splitlines` and friends, needed by `tmux.list_sessions`
and the empty-payload check in `orchestrator.send_prompt`. -/

/-- Characters treated as whitespace by Python `str.strip()`. -/
def pyIsSpace (c : Char) : Bool :=
  let n := c.toNat
  n == 0x20 || n == 0x9 || n == 0xa || n == 0xb || n == 0xc || n == 0xd ||
  decide (0x1c ≤ n ∧ n ≤ 0x1f) || n == 0x85 || n == 0xa0 || n == 0x1680 ||
  decide (0x2000 ≤ n ∧ n ≤ 0x200a) || n == 0x2028 || n == 0x2029 ||
  n == 0x202f || n == 0x205f || n == 0x3000

/-- Python `str.strip()` with no argument: drop leading and trailing
whitespace. -/
def pyStrip (s : String) : String :=
  ⟨((s.data.dropWhile pyIsSpace).reverse.dropWhile pyIsSpace).reverse⟩

/-- Line-break characters recognised by Python `str.splitlines()`
(besides the `\r\n` pair, handled separately). -/
def pyIsLineBreak (c : Char) : Bool :=
  let n := c.toNat
  n == 0xa || n == 0xd || n == 0xb || n == 0xc || n == 0x1c || n == 0x1d ||
  n == 0x1e || n == 0x85 || n == 0x2028 || n == 0x2029

/-- Worker for `pySplitlines`; `acc` holds the current line reversed. -/
def splitlinesAux : List Char → List Char → List String
  | [], acc => if acc.isEmpty then [] else [⟨acc.reverse⟩]
  | '\r' :: '\n' :: rest, acc => ⟨acc.reverse⟩ :: splitlinesAux rest []
  | c :: rest, acc =>
    if pyIsLineBreak c then ⟨acc.reverse⟩ :: splitlinesAux rest []
    else splitlinesAux rest (c :: acc)

/-- Python `str.splitlines()`. -/
def pySplitlines (s : String) : List String :=
  splitlinesAux s.data []

/-! ### `fnmatch.fnmatchcase`

Python's `fnmatch` first translates the glob pattern (`*`, `?`, `[...]`,
literals) and then matches; we mirror that with a token list. -/

/-- Scan to the first `]`, returning the characters before it and the
remainder after it; `none` when the bracket is unterminated. -/
def bracketSplit : List Char → Option (List Char × List Char)
  | [] => none
  | ']' :: rest => some ([], rest)
  | c :: rest =>
    match bracketSplit rest with
    | some (a, b) => some (c :: a, b)
    | none => none

theorem bracketSplit_length :
    ∀ (l : List Char) (a b : List Char), bracketSplit l = some (a, b) →
      b.length < l.length := by
  intro l
  induction l with
  | nil => intro a b h; simp [bracketSplit] at h
  | cons c rest ih =>
    intro a b h
    unfold bracketSplit at h
    split at h
    · exact (Option.noConfusion h)
    · rename_i rest' heq
      injection h with h
      injection heq with hc hr
      subst hr
      obtain ⟨rfl, rfl⟩ := Prod.mk.injEq .. ▸ Prod.mk.inj h
      simp
    · rename_i c' rest' hne heq
      injection heq with hc hr
      subst hc hr
      split at h
      · rename_i a' b' hsub
        injection h with h
        obtain ⟨rfl, rfl⟩ := Prod.mk.injEq .. ▸ Prod.mk.inj h
        have := ih a' b hsub
        simp; omega
      · exact (Option.noConfusion h)

/-- Content of a `[...]` class: optional leading `!`, a `]` immediately
after `[` or `[!` is a literal member.  Returns (negated, members, rest). -/
def parseBracket (l : List Char) : Option (Bool × List Char × List Char) :=
  match l with
  | '!' :: rest =>
    (match rest with
     | ']' :: rest2 => (bracketSplit rest2).map (fun p => (true, ']' :: p.1, p.2))
     | _ => (bracketSplit rest).map (fun p => (true, p.1, p.2)))
  | ']' :: rest2 => (bracketSplit rest2).map (fun p => (false, ']' :: p.1, p.2))
  | _ => (bracketSplit l).map (fun p => (false, p.1, p.2))

theorem parseBracket_length (l : List Char) (neg : Bool) (s rest : List Char)
    (h : parseBracket l = some (neg, s, rest)) : rest.length < l.length + 1 := by
  unfold parseBracket at h
  split at h
  · rename_i tail
    split at h
    · rename_i tail2
      simp only [Option.map_eq_some'] at h
      obtain ⟨⟨a, b⟩, hbs, hp⟩ := h
      have := bracketSplit_length _ _ _ hbs
      injection hp with h1 h2
      injection h2 with h2 h3
      subst h3
      simp_all; omega
    · simp only [Option.map_eq_some'] at h
      obtain ⟨⟨a, b⟩, hbs, hp⟩ := h
      have := bracketSplit_length _ _ _ hbs
      injection hp with h1 h2
      injection h2 with h2 h3
      subst h3
      simp_all; omega
  · rename_i tail2
    simp only [Option.map_eq_some'] at h
    obtain ⟨⟨a, b⟩, hbs, hp⟩ := h
    have := bracketSplit_length _ _ _ hbs
    injection hp with h1 h2
    injection h2 with h2 h3
    subst h3
    simp_all; omega
  · simp only [Option.map_eq_some'] at h
    obtain ⟨⟨a, b⟩, hbs, hp⟩ := h
    have := bracketSplit_length _ _ _ hbs
    injection hp with h1 h2
    injection h2 with h2 h3
    subst h3
    simp_all; omega

/-- Tokens of a translated glob pattern, mirroring `fnmatch.translate`. -/
inductive GlobTok where
  | star : GlobTok
  | anyChar : GlobTok
  | cls (neg : Bool) (set : List Char) : GlobTok
  | lit (c : Char) : GlobTok
deriving DecidableEq

/-- Fuelled worker for `compilePat`; the fuel strictly exceeds the number
of characters left, so the `0` case is never reached from `compilePat`. -/
def compilePatFuel : Nat → List Char → List GlobTok
  | 0, _ => []
  | _ + 1, [] => []
  | fuel + 1, '*' :: p => .star :: compilePatFuel fuel p
  | fuel + 1, '?' :: p => .anyChar :: compilePatFuel fuel p
  | fuel + 1, '[' :: p =>
    (match parseBracket p with
     | some (neg, set, prest) => .cls neg set :: compilePatFuel fuel prest
     | none => .lit '[' :: compilePatFuel fuel p)
  | fuel + 1, c :: p => .lit c :: compilePatFuel fuel p

/-- Translate a glob pattern into tokens (`*`, `?`, `[...]` classes,
literals); an unterminated `[` is a literal, as in `fnmatch.translate`. -/
def compilePat (l : List Char) : List GlobTok :=
  compilePatFuel (l.length + 1) l

/-- Membership of a character in a bracket-class body, with `a-b` ranges. -/
def charInSet : Char → List Char → Bool
  | _, [] => false
  | c, a :: '-' :: b :: rest => (decide (a ≤ c) && decide (c ≤ b)) || charInSet c rest
  | c, a :: rest => c == a || charInSet c rest

/-- Fuelled worker for `matchToks`; the fuel strictly exceeds the summed
lengths, so the `0` case is never reached from `matchToks`. -/
def matchToksFuel : Nat → List GlobTok → List Char → Bool
  | 0, _, _ => false
  | _ + 1, [], [] => true
  | _ + 1, [], _ :: _ => false
  | fuel + 1, .star :: p, s =>
    matchToksFuel fuel p s ||
      (match s with
       | [] => false
       | _ :: s2 => matchToksFuel fuel (.star :: p) s2)
  | fuel + 1, .anyChar :: p, s =>
    (match s with
     | [] => false
     | _ :: s2 => matchToksFuel fuel p s2)
  | fuel + 1, .cls neg set :: p, s =>
    (match s with
     | [] => false
     | c :: s2 =>
       (if neg then !(charInSet c set) else charInSet c set) &&
         matchToksFuel fuel p s2)
  | fuel + 1, .lit a :: p, s =>
    (match s with
     | [] => false
     | c :: s2 => c == a && matchToksFuel fuel p s2)

/-- Match a token list against a string (one path segment). -/
def matchToks (p : List GlobTok) (s : List Char) : Bool :=
  matchToksFuel (p.length + s.length + 1) p s

/-- Python `fnmatch.fnmatchcase(name, pat)` (case-sensitive). -/
def fnmatchcase (name pat : String) : Bool :=
  matchToks (compilePat pat.data) name.data

/-! ### `pathlib.PurePosixPath.match` -/

/-- Split a character list on `/` separators (Python `s.split("/")`). -/
def splitOnSlash : List Char → List (List Char)
  | [] => [[]]
  | '/' :: rest => [] :: splitOnSlash rest
  | c :: rest =>
    match splitOnSlash rest with
    | h :: t => (c :: h) :: t
    | [] => [[c]]

/-- The `parts` of a `PurePosixPath`, excluding the root: split on `/`,
dropping empty and `.` components. -/
def pathParts (s : String) : List String :=
  ((splitOnSlash s.data).map (fun l => String.mk l)).filter
    (fun p => !(p == "" || p == "."))

/-- Whether a POSIX path string is absolute. -/
def isAbsPath (s : String) : Bool :=
  match s.data with
  | '/' :: _ => true
  | _ => false

/-- Zip-from-the-right matching of pattern parts against path parts
(both lists already reversed); stops when the shorter is exhausted,
like Python's `zip`. -/
def matchPartsRev : List String → List String → Bool
  | [], _ => true
  | _ :: _, [] => true
  | pat :: ps, part :: xs => fnmatchcase part pat && matchPartsRev ps xs

/-- The full `_parts` of a `PurePosixPath`, with the root as a leading
`"/"` entry when absolute. -/
def fullParts (s : String) : List String :=
  (if isAbsPath s then ["/"] else []) ++ pathParts s

/-- `PurePosixPath(path).match(pattern)`; `none` models the `ValueError`
raised on an empty pattern. -/
def posixMatch (path pattern : String) : Option Bool :=
  if (fullParts pattern).isEmpty then none
  else if isAbsPath pattern then
    if (fullParts pattern).length != (fullParts path).length then some false
    else some (matchPartsRev (fullParts pattern).reverse
      (fullParts path).reverse)
  else if (fullParts pattern).length > (fullParts path).length then
    some false
  else some (matchPartsRev (fullParts pattern).reverse
    (fullParts path).reverse)

/-! ### `PromptBuilder._collect_remote_content`: candidate filtering
(`src/sf/core/prompt.py`, lines 50-65) -/

/-- Strip a leading `./` from a path produced by `find`. -/
def stripDotSlash (raw : String) : String :=
  match raw.data with
  | '.' :: '/' :: rest => String.mk rest
  | _ => raw

/-- Python `any(posix_path.match(p) for p in pats)`: short-circuits on the
first `True`; `none` when a `ValueError` escapes first. -/
def anyMatchPy (path : String) : List String → Option Bool
  | [] => some false
  | pat :: rest =>
    match posixMatch path pat with
    | none => none
    | some true => some true
    | some false => anyMatchPy path rest

/-- The candidate-collection loop: strip `./`, skip empties, keep paths
matching some include and no exclude, in listing order. -/
def collectCandidatesAux (includes excludes : List String) :
    List String → Option (List String)
  | [] => some []
  | raw :: rest =>
    let rel := stripDotSlash raw
    if rel = "" then collectCandidatesAux includes excludes rest
    else
      match anyMatchPy rel includes with
      | none => none
      | some false => collectCandidatesAux includes excludes rest
      | some true =>
        match anyMatchPy rel excludes with
        | none => none
        | some true => collectCandidatesAux includes excludes rest
        | some false => (collectCandidatesAux includes excludes rest).map (rel :: ·)

/-- Python string `<=`: lexicographic by code point. -/
def cpLe : List Char → List Char → Bool
  | [], _ => true
  | _ :: _, [] => false
  | c :: cs, d :: ds =>
    if c.toNat < d.toNat then true
    else if d.toNat < c.toNat then false
    else cpLe cs ds

/-- The filtered, sorted candidate list of
`PromptBuilder._collect_remote_content`; `candidates.sort()` sorts
lexicographically by code point, which on a total order is the unique
sorted permutation. -/
def collectCandidates (listing : List String) (includes excludes : List String) :
    Option (List String) :=
  (collectCandidatesAux includes excludes listing).map
    (List.insertionSort (fun a b => cpLe a.data b.data = true))

/-! ### UTF-8 encoding and lenient decoding

Python strings are modelled as lists of Unicode code points; `encode("utf-8")`
and `decode("utf-8", "ignore")` are modelled byte-precisely. -/

/-- A Unicode scalar value (encodable code point: not a surrogate, below
`0x110000`). -/
def IsScalar (c : Nat) : Prop :=
  c < 0xd800 ∨ (0xe000 ≤ c ∧ c < 0x110000)

instance (c : Nat) : Decidable (IsScalar c) := by
  unfold IsScalar; infer_instance

/-- UTF-8 encoding of one code point. -/
def utf8EncodeChar (c : Nat) : List Nat :=
  if c < 0x80 then [c]
  else if c < 0x800 then [0xc0 + c / 64, 0x80 + c % 64]
  else if c < 0x10000 then
    [0xe0 + c / 4096, 0x80 + (c / 64) % 64, 0x80 + c % 64]
  else
    [0xf0 + c / 262144, 0x80 + (c / 4096) % 64, 0x80 + (c / 64) % 64,
      0x80 + c % 64]

/-- `str.encode("utf-8")`. -/
def utf8Encode (cps : List Nat) : List Nat :=
  cps.flatMap utf8EncodeChar

/-- A UTF-8 continuation byte. -/
def isCont (b : Nat) : Bool :=
  decide (0x80 ≤ b ∧ b ≤ 0xbf)

/-- Valid first continuation byte after a three-byte lead (excludes
overlong forms and surrogates, as CPython's strict decoder does). -/
def cont3ok (lead b1 : Nat) : Bool :=
  if lead == 0xe0 then decide (0xa0 ≤ b1 ∧ b1 ≤ 0xbf)
  else if lead == 0xed then decide (0x80 ≤ b1 ∧ b1 ≤ 0x9f)
  else isCont b1

/-- Valid first continuation byte after a four-byte lead (excludes
overlong forms and code points above `0x10ffff`). -/
def cont4ok (lead b1 : Nat) : Bool :=
  if lead == 0xf0 then decide (0x90 ≤ b1 ∧ b1 ≤ 0xbf)
  else if lead == 0xf4 then decide (0x80 ≤ b1 ∧ b1 ≤ 0x8f)
  else isCont b1

/-- One decoding step on a lead byte `b` followed by `rest`: the decoded
code point and the bytes after its sequence, or `none` when `b` starts no
valid complete sequence (invalid lead, bad continuation, or truncated at
the end of data). -/
def utf8Step (b : Nat) (rest : List Nat) : Option (Nat × List Nat) :=
  if b < 0x80 then some (b, rest)
  else if 0xc2 ≤ b ∧ b ≤ 0xdf then
    match rest with
    | b1 :: rest1 =>
      if isCont b1 then some ((b - 0xc0) * 64 + (b1 - 0x80), rest1) else none
    | [] => none
  else if 0xe0 ≤ b ∧ b ≤ 0xef then
    match rest with
    | b1 :: b2 :: rest2 =>
      if cont3ok b b1 && isCont b2 then
        some ((b - 0xe0) * 4096 + (b1 - 0x80) * 64 + (b2 - 0x80), rest2)
      else none
    | _ => none
  else if 0xf0 ≤ b ∧ b ≤ 0xf4 then
    match rest with
    | b1 :: b2 :: b3 :: rest3 =>
      if cont4ok b b1 && isCont b2 && isCont b3 then
        some ((b - 0xf0) * 262144 + (b1 - 0x80) * 4096 + (b2 - 0x80) * 64 +
          (b3 - 0x80), rest3)
      else none
    | _ => none
  else none

theorem utf8Step_length (b : Nat) (rest : List Nat) (c : Nat)
    (rest2 : List Nat) (h : utf8Step b rest = some (c, rest2)) :
    rest2.length ≤ rest.length := by
  unfold utf8Step at h
  repeat' split at h
  all_goals
    first
    | exact Option.noConfusion h
    | (injection h with h
       rw [Prod.mk.injEq] at h
       obtain ⟨rfl, rfl⟩ := h
       try simp only [List.length_cons]
       omega)

/-- Fuelled worker for `utf8DecodeIgnore`; the fuel never drops below the
number of bytes left, so the `0` case is never reached from
`utf8DecodeIgnore`. -/
def utf8DecodeIgnoreFuel : Nat → List Nat → List Nat
  | 0, _ => []
  | _ + 1, [] => []
  | fuel + 1, b :: rest =>
    match utf8Step b rest with
    | some (c, rest2) => c :: utf8DecodeIgnoreFuel fuel rest2
    | none => utf8DecodeIgnoreFuel fuel rest

/-- `bytes.decode("utf-8", "ignore")`: decode one sequence per step,
skipping the first byte of any invalid or truncated sequence and
resuming. -/
def utf8DecodeIgnore (l : List Nat) : List Nat :=
  utf8DecodeIgnoreFuel l.length l

theorem utf8DecodeIgnoreFuel_congr :
    ∀ (fuel fuel2 : Nat) (l : List Nat), l.length ≤ fuel →
      l.length ≤ fuel2 →
      utf8DecodeIgnoreFuel fuel l = utf8DecodeIgnoreFuel fuel2 l := by
  intro fuel
  induction fuel with
  | zero =>
    intro fuel2 l h1 _
    cases l with
    | nil => cases fuel2 <;> rfl
    | cons b rest => simp at h1
  | succ f ih =>
    intro fuel2 l h1 h2
    cases l with
    | nil => cases fuel2 <;> rfl
    | cons b rest =>
      cases fuel2 with
      | zero => simp at h2
      | succ f2 =>
        simp only [List.length_cons] at h1 h2
        simp only [utf8DecodeIgnoreFuel]
        cases hstep : utf8Step b rest with
        | some pr =>
          obtain ⟨c, rest2⟩ := pr
          have hlen := utf8Step_length b rest c rest2 hstep
          show c :: utf8DecodeIgnoreFuel f rest2 =
            c :: utf8DecodeIgnoreFuel f2 rest2
          rw [ih f2 rest2 (by omega) (by omega)]
        | none =>
          show utf8DecodeIgnoreFuel f rest = utf8DecodeIgnoreFuel f2 rest
          exact ih f2 rest (by omega) (by omega)

/-- The fixed truncation marker of `PromptBuilder._collect_remote_content`,
as code points. -/
def truncationMarker : List Nat :=
  ("\n# [truncated due to max-bytes]\n".data.map Char.toNat)

/-- The byte-cap step of `PromptBuilder._collect_remote_content`
(`src/sf/core/prompt.py`, lines 84-92). -/
def truncateContent (content : List Nat) (maxBytes : Option Nat) : List Nat :=
  match maxBytes with
  | none => content
  | some mb =>
    let encoded := utf8Encode content
    if encoded.length ≤ mb then content
    else utf8DecodeIgnore (encoded.take mb) ++ truncationMarker

/-! ### SHA-256 (`hashlib.sha256`), needed by `compute_port_offset` -/

/-- Truncate to a 32-bit word. -/
def w32 (x : Nat) : Nat := x % 4294967296

/-- 32-bit right rotation. -/
def rotr32 (n x : Nat) : Nat := w32 ((x >>> n) ||| (x <<< (32 - n)))

/-- SHA-256 round constants (decimal). -/
def sha256K : List Nat :=
  [1116352408, 1899447441, 3049323471, 3921009573, 961987163,
   1508970993, 2453635748, 2870763221, 3624381080, 310598401,
   607225278, 1426881987, 1925078388, 2162078206, 2614888103,
   3248222580, 3835390401, 4022224774, 264347078, 604807628,
   770255983, 1249150122, 1555081692, 1996064986, 2554220882,
   2821834349, 2952996808, 3210313671, 3336571891, 3584528711,
   113926993, 338241895, 666307205, 773529912, 1294757372,
   1396182291, 1695183700, 1986661051, 2177026350, 2456956037,
   2730485921, 2820302411, 3259730800, 3345764771, 3516065817,
   3600352804, 4094571909, 275423344, 430227734, 506948616,
   659060556, 883997877, 958139571, 1322822218, 1537002063,
   1747873779, 1955562222, 2024104815, 2227730452, 2361852424,
   2428436474, 2756734187, 3204031479, 3329325298]

/-- SHA-256 initial hash value (decimal). -/
def sha256H0 : List Nat :=
  [1779033703, 3144134277, 1013904242, 2773480762,
   1359893119, 2600822924, 528734635, 1541459225]

def bigSigma0 (x : Nat) : Nat := rotr32 2 x ^^^ rotr32 13 x ^^^ rotr32 22 x

def bigSigma1 (x : Nat) : Nat := rotr32 6 x ^^^ rotr32 11 x ^^^ rotr32 25 x

def smallSigma0 (x : Nat) : Nat := rotr32 7 x ^^^ rotr32 18 x ^^^ (x >>> 3)

def smallSigma1 (x : Nat) : Nat := rotr32 17 x ^^^ rotr32 19 x ^^^ (x >>> 10)

def chFun (x y z : Nat) : Nat := (x &&& y) ^^^ ((x ^^^ 0xffffffff) &&& z)

def majFun (x y z : Nat) : Nat := (x &&& y) ^^^ (x &&& z) ^^^ (y &&& z)

/-- Extend the message schedule; `rws` holds the words produced so far,
most recent first. -/
def scheduleAux (rws : List Nat) : Nat → List Nat
  | 0 => rws
  | n + 1 =>
    scheduleAux
      (w32 (rws.getD 15 0 + smallSigma0 (rws.getD 14 0) + rws.getD 6 0 +
          smallSigma1 (rws.getD 1 0)) :: rws) n

/-- The 64-word message schedule of one block (given as 16 words). -/
def sha256Schedule (block : List Nat) : List Nat :=
  (scheduleAux block.reverse 48).reverse

/-- One compression round on the state `[a, b, c, d, e, f, g, h]`. -/
def compressRound (st : List Nat) (k w : Nat) : List Nat :=
  match st with
  | [a, b, c, d, e, f, g, h] =>
    let t1 := w32 (h + bigSigma1 e + chFun e f g + k + w)
    let t2 := w32 (bigSigma0 a + majFun a b c)
    [w32 (t1 + t2), a, b, c, w32 (d + t1), e, f, g]
  | other => other

/-- Compress one 16-word block into the running hash. -/
def compressBlock (h : List Nat) (block : List Nat) : List Nat :=
  let ws := sha256Schedule block
  let st := (sha256K.zip ws).foldl (fun st kw => compressRound st kw.1 kw.2) h
  (h.zip st).map (fun p => w32 (p.1 + p.2))

/-- Big-endian 8-byte encoding of the bit length. -/
def beBytes8 (n : Nat) : List Nat :=
  [n / 72057594037927936 % 256, n / 281474976710656 % 256,
   n / 1099511627776 % 256, n / 4294967296 % 256, n / 16777216 % 256,
   n / 65536 % 256, n / 256 % 256, n % 256]

/-- SHA-256 padding: `0x80`, zeros to 56 mod 64, 8-byte bit length. -/
def sha256Pad (msg : List Nat) : List Nat :=
  msg ++ [0x80] ++ List.replicate ((119 - msg.length % 64) % 64) 0 ++
    beBytes8 (msg.length * 8)

/-- Group bytes into big-endian 32-bit words. -/
def toWords : List Nat → List Nat
  | b0 :: b1 :: b2 :: b3 :: rest =>
    (b0 * 16777216 + b1 * 65536 + b2 * 256 + b3) :: toWords rest
  | _ => []

/-- Split a byte list into 64-byte chunks. -/
def chunk64 : List Nat → List (List Nat)
  | [] => []
  | b :: rest => ((b :: rest).take 64) :: chunk64 ((b :: rest).drop 64)
termination_by l => l.length
decreasing_by simp_wf; omega

/-- The eight 32-bit hash words of a byte message. -/
def sha256Words (msg : List Nat) : List Nat :=
  (chunk64 (sha256Pad msg)).foldl (fun h blk => compressBlock h (toWords blk))
    sha256H0

/-- The 32 digest bytes. -/
def sha256Digest (msg : List Nat) : List Nat :=
  (sha256Words msg).flatMap
    (fun w => [w / 16777216 % 256, w / 65536 % 256, w / 256 % 256, w % 256])

/-- Lower-case hex digit. -/
def hexDigitChar (n : Nat) : Char :=
  if n < 10 then Char.ofNat (48 + n) else Char.ofNat (87 + n)

/-- `hashlib.sha256(...).hexdigest()` as a character list. -/
def sha256Hexdigest (msg : List Nat) : List Char :=
  (sha256Digest msg).flatMap (fun b => [hexDigitChar (b / 16), hexDigitChar (b % 16)])

/-- Value of a lower-case hex digit. -/
def hexDigitVal (c : Char) : Nat :=
  if 97 ≤ c.toNat then c.toNat - 87 else c.toNat - 48

/-- `int(s, 16)` on a lower-case hex string. -/
def parseHex (l : List Char) : Nat :=
  l.foldl (fun a c => a * 16 + hexDigitVal c) 0

/-! ### `compute_port_offset` (`src/sf/models.py`, lines 132-142) -/

def PORT_BLOCK_SIZE : Nat := 100

def PORT_BASE : Nat := 10000

def PORT_BUCKETS : Nat := 500

/-- Deterministic port offset from the feature (and optionally repo) name;
names are given as Unicode code point lists. -/
def compute_port_offset (feature_name : List Nat) (repo_name : Option (List Nat)) :
    Nat :=
  let key : List Nat :=
    match repo_name with
    | none => feature_name
    | some r => feature_name ++ [0x2f] ++ r
  let digest := sha256Hexdigest (utf8Encode key)
  let bucket := parseHex (digest.take 8) % PORT_BUCKETS
  PORT_BASE + bucket * PORT_BLOCK_SIZE

/-! ### Data model (`src/sf/models.py`)

Python dicts become association lists, pydantic validators become `Except`
returning smart constructors. -/

/-- `HostConfig`: a remote SSH target. -/
structure HostConfig where
  name : String
  target : String
  env : List (String × String)
  tags : List String
deriving DecidableEq

/-- `RepoConfig`: repository metadata. -/
structure RepoConfig where
  name : String
  url : String
  base : String
  anchor_subdir : Option String
deriving DecidableEq

/-- `ServiceConfig`: service runtime descriptor of an attachment. -/
structure ServiceConfig where
  runtime : String
  file : Option String
  commands : Option (List (String × String))
deriving DecidableEq

/-- `FeatureRepoAttachment`: binds a repo to a feature on some hosts. -/
structure FeatureRepoAttachment where
  repo : String
  hosts : List String
  subdir : Option String
  service : Option ServiceConfig
deriving DecidableEq

/-- Pydantic construction of `FeatureRepoAttachment`: the `_hosts_not_empty`
validator rejects an empty host list (`src/sf/models.py`, lines 97-102). -/
def mkFeatureRepoAttachment (repo : String) (hosts : List String)
    (subdir : Option String) (service : Option ServiceConfig) :
    Except String FeatureRepoAttachment :=
  if hosts.isEmpty then .error "Attachment must include at least one host"
  else .ok { repo, hosts, subdir, service }

/-- `FeatureConfig`: per-feature record. -/
structure FeatureConfig where
  name : String
  base : String
  repos : List FeatureRepoAttachment
deriving DecidableEq

/-- Pydantic construction of `FeatureConfig`: no validator constrains
`repos` (`src/sf/models.py`, lines 105-116). -/
def mkFeatureConfig (name base : String) (repos : List FeatureRepoAttachment) :
    Except String FeatureConfig :=
  .ok { name, base, repos }

/-- `FeatureConfig.get_attachment`: first attachment with the given repo
name. -/
def FeatureConfig.get_attachment (cfg : FeatureConfig) (repo_name : String) :
    Option FeatureRepoAttachment :=
  cfg.repos.find? (fun att => att.repo == repo_name)

/-- `SfConfig`: top-level configuration. -/
structure SfConfig where
  hosts : List (String × HostConfig)
  repos : List (String × RepoConfig)
deriving DecidableEq

/-- Modelled from the spec: `SessionDescriptor` is imported from `sf.models`
by the orchestrator, tmux manager and tests, but its definition is not under
`src/`; the spec fixes it as a derived identity for a (feature, repo, llm)
triple. -/
structure SessionDescriptor where
  feature : String
  repo : String
  llm : String
deriving DecidableEq

/-- Modelled from the spec: the session name uses the fixed delimiter scheme
`feat:<feature>:<repo>:<llm>`. -/
def SessionDescriptor.name (d : SessionDescriptor) : String :=
  "feat:" ++ d.feature ++ ":" ++ d.repo ++ ":" ++ d.llm

/-- Modelled from the spec: `PromptPlan` is imported from `sf.models` but not
defined under `src/`; the spec fixes its fields as feature, repo, optional
local prompt file, include-glob list, exclude-glob list, optional byte cap
(field names `includes`/`excludes` follow `_collect_remote_content`'s
keyword parameters). -/
structure PromptPlan where
  feature : String
  repo : String
  prompt_file : Option String
  includes : List String
  excludes : List String
  max_bytes : Option Nat
deriving DecidableEq

/-- `CommandResult` of the command executor (`sf.core.ssh`): exit status
plus captured output. -/
structure CommandResult where
  exit_code : Int
  stdout : String
  stderr : String
deriving DecidableEq

/-! ### `TmuxManager.list_sessions` (`src/sf/core/tmux.py`, lines 40-44) -/

/-- `list_sessions`, as a function of the `CommandResult` the multiplexer
listing command produced (`check=False`, so a failure is a result, not an
exception). -/
def list_sessions (result : CommandResult) : List String :=
  if result.exit_code ≠ 0 then []
  else ((pySplitlines result.stdout).map pyStrip).filter (fun l => !(l == ""))

/-! ### Orchestrator (`src/sf/core/orchestrator.py`)

The git manager and state store collaborators (not under `src/`) enter as
oracle parameters; configuration records are explicit arguments. -/

/-- `_ensure_repo`: config lookup with an `OrchestratorError` message. -/
def ensureRepoCfg (name : String) (repos : List (String × RepoConfig)) :
    Except String RepoConfig :=
  match repos.lookup name with
  | some rc => .ok rc
  | none => .error s!"Repository '{name}' is not defined"

/-- `_ensure_host`: config lookup with an `OrchestratorError` message. -/
def ensureHostCfg (name : String) (hosts : List (String × HostConfig)) :
    Except String HostConfig :=
  match hosts.lookup name with
  | some hc => .ok hc
  | none => .error s!"Host '{name}' is not defined"

/-- `_select_host` (`src/sf/core/orchestrator.py`, lines 69-74).  The
Python guard `if preferred and preferred in attachment.hosts` treats an
empty-string override as absent. -/
def selectHost (attachment : FeatureRepoAttachment) (preferred : Option String) :
    Except String String :=
  match preferred with
  | some p =>
    if p ≠ "" ∧ p ∈ attachment.hosts then .ok p
    else
      match attachment.hosts with
      | h :: _ => .ok h
      | [] => .error "Attachment has no hosts configured"
  | none =>
    match attachment.hosts with
    | h :: _ => .ok h
    | [] => .error "Attachment has no hosts configured"

/-- One summary entry of `sync_feature`: the dict
`{host: ..., repo: ..., worktree: ...}`. -/
structure SyncEntry where
  host : String
  repo : String
  worktree : String
deriving DecidableEq

/-- Oracle for the workspace manager (`sf.core.git`, not under `src/`),
keyed by (host name, attachment repo name); an `error` models a remote
command failure surfaced by `_guard` as an `OrchestratorError`. -/
structure GitOracle where
  ensureAnchor : String → String → Except String Unit
  refreshBranch : String → String → Except String Unit
  ensureWorktree : String → String → Except String String

/-- The attachment list `sync_feature` operates on: optionally filtered by
repo name.  The Python guard `if repo:` treats an empty-string filter as
absent. -/
def filteredAttachments (feature_cfg : FeatureConfig)
    (repoFilter : Option String) : List FeatureRepoAttachment :=
  match repoFilter with
  | some r =>
    if r = "" then feature_cfg.repos
    else feature_cfg.repos.filter (fun att => att.repo == r)
  | none => feature_cfg.repos

/-- Per-host body of the `sync_feature` loop: resolve the host config,
ensure anchor, refresh branch, ensure worktree, append a summary entry. -/
def syncHostStep (cfg : SfConfig) (g : GitOracle) (repoKey rcName : String)
    (acc2 : List SyncEntry) (host_name : String) :
    Except String (List SyncEntry) := do
  let _ ← ensureHostCfg host_name cfg.hosts
  let _ ← g.ensureAnchor host_name repoKey
  let _ ← g.refreshBranch host_name repoKey
  let w ← g.ensureWorktree host_name repoKey
  pure (acc2 ++ [SyncEntry.mk host_name rcName w])

/-- Per-attachment body of the `sync_feature` loop: resolve the repo
config, then iterate over the attachment's hosts. -/
def syncAttStep (cfg : SfConfig) (g : GitOracle) (acc : List SyncEntry)
    (att : FeatureRepoAttachment) : Except String (List SyncEntry) := do
  let repo_cfg ← ensureRepoCfg att.repo cfg.repos
  att.hosts.foldlM (syncHostStep cfg g att.repo repo_cfg.name) acc

/-- `sync_feature` (`src/sf/core/orchestrator.py`, lines 82-111), given the
loaded config and feature record. -/
def sync_feature (cfg : SfConfig) (feature_cfg : FeatureConfig)
    (repoFilter : Option String) (g : GitOracle) :
    Except String (List SyncEntry) :=
  let attachments := filteredAttachments feature_cfg repoFilter
  if attachments.isEmpty then .error "No repo attachments found to sync"
  else attachments.foldlM (syncAttStep cfg g) []

/-- The prompt plan built by `send_prompt` (`src/sf/core/orchestrator.py`,
lines 200-207): `include or ["README.md"]` and `exclude or []`. -/
def mkPromptPlan (feature repo : String) (prompt_file : Option String)
    (includeArg excludeArg : Option (List String)) (max_bytes : Option Nat) :
    PromptPlan :=
  { feature, repo, prompt_file
    includes :=
      match includeArg with
      | some (p :: ps) => p :: ps
      | _ => ["README.md"]
    excludes :=
      match excludeArg with
      | some l => l
      | none => []
    max_bytes }

/-- `_slug` inside `send_prompt`: replace `/` and `:` with `_`. -/
def slugOf (value : String) : String :=
  value.map (fun c => if c = '/' || c = ':' then '_' else c)

/-- Remote-visible operations `send_prompt` can issue, in order. -/
inductive SendAction where
  | build (plan : PromptPlan) : SendAction
  | pushFile (remote : String) : SendAction
  | tmuxDeliver (session : String) : SendAction
deriving DecidableEq

/-- The summary dict returned by `send_prompt`. -/
structure SendResult where
  session : String
  host : String
  bytes : Nat
deriving DecidableEq

/-- Oracles for `send_prompt`: workspace manager, prompt builder, file
push and the tmux load/paste/send sequence, plus the generated uuid hex. -/
structure SendEnv where
  ensureAnchor : Except String Unit
  refreshBranch : Except String Unit
  ensureWorktree : Except String String
  build : String → PromptPlan → Except String String
  pushFile : String → Except String Unit
  tmuxDeliver : String → Except String Unit
  uuidHex : String

/-- The worktree path `send_prompt` hands the prompt builder: the
attachment subdir is appended when present; the Python guard
`if attachment.subdir:` treats an empty-string subdir as absent. -/
def worktreeForPrompt (wt : String) (subdir : Option String) : String :=
  match subdir with
  | some sd => if sd = "" then wt else wt ++ "/" ++ sd
  | none => wt

/-- `send_prompt` (`src/sf/core/orchestrator.py`, lines 174-231), returning
the trace of remote-visible actions attempted alongside the result. -/
def send_prompt (cfg : SfConfig) (feature_cfg : FeatureConfig)
    (feature repo llm : String) (prompt_file : Option String)
    (includeArg excludeArg : Option (List String)) (max_bytes : Option Nat)
    (host : Option String) (env : SendEnv) :
    List SendAction × Except String SendResult :=
  match feature_cfg.get_attachment repo with
  | none => ([], .error s!"Repo '{repo}' is not attached to feature '{feature}'")
  | some attachment =>
    match selectHost attachment host with
    | .error e => ([], .error e)
    | .ok host_name =>
      match ensureHostCfg host_name cfg.hosts with
      | .error e => ([], .error e)
      | .ok _ =>
        match ensureRepoCfg repo cfg.repos with
        | .error e => ([], .error e)
        | .ok _ =>
          match env.ensureAnchor with
          | .error e => ([], .error e)
          | .ok _ =>
            match env.refreshBranch with
            | .error e => ([], .error e)
            | .ok _ =>
              match env.ensureWorktree with
              | .error e => ([], .error e)
              | .ok wt =>
                let worktree_path := worktreeForPrompt wt attachment.subdir
                let plan :=
                  mkPromptPlan feature repo prompt_file includeArg excludeArg
                    max_bytes
                match env.build worktree_path plan with
                | .error e => ([.build plan], .error e)
                | .ok payload =>
                  if pyStrip payload = "" then
                    ([.build plan], .error "Prompt payload is empty")
                  else
                    let slug :=
                      slugOf feature ++ "." ++ slugOf repo ++ "." ++ slugOf llm
                    let remote_path :=
                      "/tmp/.sf_prompt." ++ slug ++ "." ++ env.uuidHex ++ ".txt"
                    match env.pushFile remote_path with
                    | .error e =>
                      ([.build plan, .pushFile remote_path], .error e)
                    | .ok _ =>
                      let session := (SessionDescriptor.mk feature repo llm).name
                      match env.tmuxDeliver session with
                      | .error e =>
                        ([.build plan, .pushFile remote_path,
                          .tmuxDeliver session], .error e)
                      | .ok _ =>
                        ([.build plan, .pushFile remote_path,
                          .tmuxDeliver session],
                         .ok { session, host := host_name,
                               bytes := (utf8Encode
                                 (payload.data.map Char.toNat)).length })

/-! ### CLI `feature attach` update (`src/sf/cli.py`, lines 347-352) -/

/-- The attachment-list update performed by `sf feature attach`: replace the
existing attachment for the repo, or append a new one. -/
def featureAttach (feature_cfg : FeatureConfig) (repoArg : String)
    (attachment : FeatureRepoAttachment) : FeatureConfig :=
  if (feature_cfg.get_attachment repoArg).isSome then
    { feature_cfg with
        repos := feature_cfg.repos.map
          (fun att => if att.repo ≠ repoArg then att else attachment) }
  else { feature_cfg with repos := feature_cfg.repos ++ [attachment] }

/-! ## Claim theorems -/

/-- C3: `compute_port_offset` is deterministic — equal inputs always yield
equal outputs — and its result always satisfies
`PORT_BASE ≤ offset < PORT_BASE + PORT_BUCKETS * PORT_BLOCK_SIZE`, i.e.
`10000 ≤ offset < 60000`. -/
theorem compute_port_offset_det_range (f : List Nat) (r : Option (List Nat))
    (f2 : List Nat) (r2 : Option (List Nat)) (h : (f, r) = (f2, r2)) :
    compute_port_offset f r = compute_port_offset f2 r2 ∧
    10000 ≤ compute_port_offset f r ∧ compute_port_offset f r < 60000 ∧
    PORT_BASE = 10000 ∧ PORT_BUCKETS = 500 ∧ PORT_BLOCK_SIZE = 100 ∧
    PORT_BASE + PORT_BUCKETS * PORT_BLOCK_SIZE = 60000 := by
  obtain ⟨rfl, rfl⟩ := Prod.mk.inj h
  refine ⟨rfl, ?_, ?_, rfl, rfl, rfl, rfl⟩
  · simp [compute_port_offset, PORT_BASE, PORT_BUCKETS, PORT_BLOCK_SIZE]
  · simp [compute_port_offset, PORT_BASE, PORT_BUCKETS, PORT_BLOCK_SIZE]
    omega

/-- Witness for C3 at a concrete (feature, repo) input. -/
theorem compute_port_offset_det_range_witness :
    compute_port_offset [100, 101] (some [99]) =
      compute_port_offset [100, 101] (some [99]) ∧
    10000 ≤ compute_port_offset [100, 101] (some [99]) ∧
    compute_port_offset [100, 101] (some [99]) < 60000 ∧
    PORT_BASE = 10000 ∧ PORT_BUCKETS = 500 ∧ PORT_BLOCK_SIZE = 100 ∧
    PORT_BASE + PORT_BUCKETS * PORT_BLOCK_SIZE = 60000 :=
  compute_port_offset_det_range [100, 101] (some [99]) [100, 101] (some [99]) rfl

/-- C4: the session descriptor name is exactly
`"feat:" ++ feature ++ ":" ++ repo ++ ":" ++ llm`; in particular
`name("payments","core","claude") = "feat:payments:core:claude"`, and any
two descriptors built from equal triples have equal names. -/
theorem sessionDescriptor_name_spec :
    (∀ f r l, (SessionDescriptor.mk f r l).name =
      "feat:" ++ f ++ ":" ++ r ++ ":" ++ l) ∧
    (SessionDescriptor.mk "payments" "core" "claude").name =
      "feat:payments:core:claude" ∧
    ∀ d e : SessionDescriptor, d.feature = e.feature → d.repo = e.repo →
      d.llm = e.llm → d.name = e.name := by
  exact ⟨fun f r l => rfl, by decide,
    fun d e h1 h2 h3 => by simp [SessionDescriptor.name, h1, h2, h3]⟩

/-- Witness for C4: two descriptors with equal triples are name-equal. -/
theorem sessionDescriptor_name_spec_witness :
    (SessionDescriptor.mk "payments" "core" "claude").name =
      (SessionDescriptor.mk ("pay" ++ "ments") "core" "claude").name :=
  sessionDescriptor_name_spec.2.2 _ _ (by decide) rfl rfl

/-- C7 counterexample: with hosts `["a", ""]` and the override `some ""`
(which is given and a member of the host list), `_select_host` returns
`"a"`, not the override — Python's truthiness guard treats the
empty-string override as absent. -/
theorem selectHost_empty_override_counterexample :
    selectHost (FeatureRepoAttachment.mk "core" ["a", ""] none none)
        (some "") = .ok "a" ∧
    "" ∈ (FeatureRepoAttachment.mk "core" ["a", ""] none none).hosts ∧
    ("a" : String) ≠ "" :=
  ⟨rfl, by decide, by decide⟩

/-- C7 (amended): the selected host is the override when it is given,
non-empty, and a member of the attachment's host list; otherwise it is the
attachment's first host; an error is raised iff the host list is empty. -/
theorem selectHost_spec (attachment : FeatureRepoAttachment)
    (preferred : Option String) :
    (∀ p, preferred = some p → p ≠ "" → p ∈ attachment.hosts →
      selectHost attachment preferred = .ok p) ∧
    ((∀ p, preferred = some p → p = "" ∨ p ∉ attachment.hosts) →
      ∀ h rest, attachment.hosts = h :: rest →
        selectHost attachment preferred = .ok h) ∧
    ((∃ e, selectHost attachment preferred = .error e) ↔
      attachment.hosts = []) := by
  refine ⟨?_, ?_, ?_⟩
  · rintro p rfl hne hmem
    simp only [selectHost]
    rw [if_pos ⟨hne, hmem⟩]
  · intro hno h rest hh
    cases preferred with
    | none => simp [selectHost, hh]
    | some p =>
      have hp := hno p rfl
      simp only [selectHost]
      rw [if_neg (by tauto), hh]
  · cases preferred with
    | none =>
      cases hh : attachment.hosts with
      | nil => simp [selectHost, hh]
      | cons h rest => simp [selectHost, hh]
    | some p =>
      by_cases hcond : p ≠ "" ∧ p ∈ attachment.hosts
      · constructor
        · rintro ⟨e, he⟩
          simp only [selectHost] at he
          rw [if_pos hcond] at he
          exact absurd he (by simp)
        · intro hh
          rw [hh] at hcond
          exact absurd hcond.2 (by simp)
      · cases hh : attachment.hosts with
        | nil =>
          refine ⟨fun _ => rfl, fun _ => ?_⟩
          refine ⟨"Attachment has no hosts configured", ?_⟩
          simp only [selectHost]
          rw [if_neg hcond, hh]
        | cons h rest =>
          constructor
          · rintro ⟨e, he⟩
            simp only [selectHost] at he
            rw [if_neg hcond, hh] at he
            exact absurd he (by simp)
          · intro hnil
            exact (List.noConfusion hnil)

/-- Witness for C7 (amended) at concrete inputs: a valid non-empty
override is honoured. -/
theorem selectHost_spec_witness :
    selectHost (FeatureRepoAttachment.mk "core" ["a", "b"] none none)
      (some "b") = .ok "b" :=
  (selectHost_spec (FeatureRepoAttachment.mk "core" ["a", "b"] none none)
      (some "b")).1 "b" rfl (by decide) (by decide)

/-- C8 counterexample: a feature record holding two attachments for the
same repo is constructed without any validation error, so at-most-one
attachment per (feature, repo) is not enforced at construction. -/
theorem featureConfig_dup_counterexample :
    mkFeatureConfig "demo" "main"
        [⟨"core", ["h1"], none, none⟩, ⟨"core", ["h2"], none, none⟩] =
      .ok ⟨"demo", "main",
        [⟨"core", ["h1"], none, none⟩, ⟨"core", ["h2"], none, none⟩]⟩ ∧
    (([⟨"core", ["h1"], none, none⟩, ⟨"core", ["h2"], none, none⟩] :
        List FeatureRepoAttachment).filter
      (fun a => a.repo == "core")).length = 2 :=
  ⟨rfl, by decide⟩

/-- C8 (amended): attachment construction rejects an empty host list — so
every constructible attachment has a non-empty host set — but
`FeatureConfig` construction does not enforce at-most-one-attachment per
repo; that invariant is maintained by the CLI attach update, which
preserves distinctness of attachment repo names. -/
theorem attachment_invariants (repo : String) (hosts : List String)
    (subdir : Option String) (service : Option ServiceConfig)
    (fc : FeatureConfig) (att : FeatureRepoAttachment) :
    ((∃ a, mkFeatureRepoAttachment repo hosts subdir service = .ok a) ↔
      hosts ≠ []) ∧
    (∀ a, mkFeatureRepoAttachment repo hosts subdir service = .ok a →
      a.hosts ≠ []) ∧
    ((fc.repos.map FeatureRepoAttachment.repo).Nodup →
      ((featureAttach fc att.repo att).repos.map
        FeatureRepoAttachment.repo).Nodup) := by
  refine ⟨?_, ?_, ?_⟩
  · unfold mkFeatureRepoAttachment
    by_cases he : hosts.isEmpty
    · rw [if_pos he]
      simp only [List.isEmpty_iff] at he
      constructor
      · rintro ⟨a, ha⟩; exact absurd ha (by simp)
      · intro hne; exact absurd he hne
    · rw [if_neg he]
      simp only [List.isEmpty_iff] at he
      exact ⟨fun _ => he, fun _ => ⟨_, rfl⟩⟩
  · intro a ha
    unfold mkFeatureRepoAttachment at ha
    by_cases he : hosts.isEmpty
    · rw [if_pos he] at ha; exact absurd ha (by simp)
    · rw [if_neg he] at ha
      simp only [List.isEmpty_iff] at he
      injection ha with ha
      rw [← ha]
      exact he
  · intro hnd
    unfold featureAttach
    by_cases hfind : (fc.get_attachment att.repo).isSome
    · rw [if_pos hfind]
      have hmap : fc.repos.map
          ((fun a => FeatureRepoAttachment.repo a) ∘
            (fun a => if a.repo ≠ att.repo then a else att)) =
          fc.repos.map FeatureRepoAttachment.repo := by
        apply List.map_congr_left
        intro x _
        by_cases hx : x.repo = att.repo
        · simp [hx]
        · simp [hx]
      simp only [List.map_map]
      rw [hmap]
      exact hnd
    · rw [if_neg hfind]
      rw [Option.not_isSome_iff_eq_none] at hfind
      simp only [FeatureConfig.get_attachment, List.find?_eq_none] at hfind
      simp only [List.map_append, List.map_cons, List.map_nil]
      rw [List.nodup_append]
      refine ⟨hnd, List.nodup_singleton _, ?_⟩
      intro x hx hy
      simp only [List.mem_singleton] at hy
      subst hy
      obtain ⟨y, hy, hyx⟩ := List.mem_map.mp hx
      have hneq : y.repo ≠ att.repo := by simpa using hfind y hy
      exact hneq hyx

/-- Witness for C8 (amended) at concrete inputs. -/
theorem attachment_invariants_witness :
    (∃ a, mkFeatureRepoAttachment "core" ["h1"] none none = .ok a) ∧
    ((featureAttach ⟨"demo", "main", [⟨"core", ["h1"], none, none⟩]⟩ "api"
        ⟨"api", ["h2"], none, none⟩).repos.map
      FeatureRepoAttachment.repo).Nodup :=
  ⟨(attachment_invariants "core" ["h1"] none none
      ⟨"demo", "main", [⟨"core", ["h1"], none, none⟩]⟩
      ⟨"api", ["h2"], none, none⟩).1.mpr (by decide),
   (attachment_invariants "core" ["h1"] none none
      ⟨"demo", "main", [⟨"core", ["h1"], none, none⟩]⟩
      ⟨"api", ["h2"], none, none⟩).2.2 (by decide)⟩

/-- C9: `list_sessions` returns the session names reported by the
multiplexer (the non-empty stripped lines of stdout) when the listing
command exits zero, and returns the empty list — never an error — when it
exits non-zero. -/
theorem list_sessions_spec (result : CommandResult) :
    (result.exit_code ≠ 0 → list_sessions result = []) ∧
    (result.exit_code = 0 →
      list_sessions result =
        ((pySplitlines result.stdout).map pyStrip).filter
          (fun l => !(l == "")) ∧
      ∀ s, s ∈ list_sessions result ↔
        s ≠ "" ∧ ∃ line ∈ pySplitlines result.stdout, pyStrip line = s) := by
  constructor
  · intro h
    simp [list_sessions, h]
  · intro h
    have heq : list_sessions result =
        ((pySplitlines result.stdout).map pyStrip).filter
          (fun l => !(l == "")) := by
      simp [list_sessions, h]
    refine ⟨heq, fun s => ?_⟩
    rw [heq]
    simp only [List.mem_filter, List.mem_map]
    constructor
    · rintro ⟨⟨line, hline, rfl⟩, hne⟩
      exact ⟨by simpa using hne, line, hline, rfl⟩
    · rintro ⟨hne, line, hline, rfl⟩
      exact ⟨⟨line, hline, rfl⟩, by simpa using hne⟩

/-- Witness for C9: a failing listing yields the empty list, and on a
successful listing membership matches the stripped non-empty lines. -/
theorem list_sessions_spec_witness :
    list_sessions ⟨1, "sess", "boom"⟩ = [] ∧
    (∀ s, s ∈ list_sessions ⟨0, " a \n\nb", ""⟩ ↔
      s ≠ "" ∧ ∃ line ∈ pySplitlines " a \n\nb", pyStrip line = s) :=
  ⟨(list_sessions_spec ⟨1, "sess", "boom"⟩).1 (by decide),
   fun s => ((list_sessions_spec ⟨0, " a \n\nb", ""⟩).2 rfl).2 s⟩

/-! Concrete fixtures used by orchestrator witnesses. -/

def witHost : HostConfig := ⟨"h", "h.example.com", [], []⟩

def witRepoCfg : RepoConfig := ⟨"core", "git@example:core.git", "main", none⟩

def witCfg : SfConfig := ⟨[("h", witHost)], [("core", witRepoCfg)]⟩

def witAtt : FeatureRepoAttachment := ⟨"core", ["h"], none, none⟩

def witFeature : FeatureConfig := ⟨"demo", "main", [witAtt]⟩

def witGit : GitOracle :=
  ⟨fun _ _ => .ok (), fun _ _ => .ok (),
   fun h r => .ok ("/wt/" ++ h ++ "/" ++ r)⟩

def witEnvEmpty : SendEnv :=
  ⟨.ok (), .ok (), .ok "/wt", fun _ _ => .ok "  \n ", fun _ => .ok (),
   fun _ => .ok (), "cafe0123"⟩

def witEnv : SendEnv :=
  ⟨.ok (), .ok (), .ok "/wt", fun _ _ => .ok "file content", fun _ => .ok (),
   fun _ => .ok (), "cafe0123"⟩

/-- C10: when `send_prompt`'s include argument is omitted (`none`) or the
empty list, the plan handed to the prompt builder has include list exactly
`["README.md"]`, and an omitted exclude defaults to `[]`; the builder is
invoked on exactly that plan (it heads the action trace). -/
theorem send_prompt_default_include (cfg : SfConfig)
    (feature_cfg : FeatureConfig) (feature repo llm : String)
    (prompt_file : Option String) (includeArg excludeArg : Option (List String))
    (max_bytes : Option Nat) (host : Option String) (env : SendEnv)
    (att : FeatureRepoAttachment)
    (hatt : feature_cfg.get_attachment repo = some att)
    (hn : String) (hsel : selectHost att host = .ok hn)
    (hc : HostConfig) (hhost : ensureHostCfg hn cfg.hosts = .ok hc)
    (rc : RepoConfig) (hrepo : ensureRepoCfg repo cfg.repos = .ok rc)
    (ha : env.ensureAnchor = .ok ()) (hrf : env.refreshBranch = .ok ())
    (wt : String) (hw : env.ensureWorktree = .ok wt)
    (hinc : includeArg = none ∨ includeArg = some [])
    (hexc : excludeArg = none) :
    (mkPromptPlan feature repo prompt_file includeArg excludeArg
      max_bytes).includes = ["README.md"] ∧
    (mkPromptPlan feature repo prompt_file includeArg excludeArg
      max_bytes).excludes = [] ∧
    ∃ rest, (send_prompt cfg feature_cfg feature repo llm prompt_file
        includeArg excludeArg max_bytes host env).1 =
      SendAction.build (mkPromptPlan feature repo prompt_file includeArg
        excludeArg max_bytes) :: rest := by
  subst hexc
  refine ⟨?_, ?_, ?_⟩
  · rcases hinc with rfl | rfl <;> rfl
  · rcases hinc with rfl | rfl <;> rfl
  · simp only [send_prompt, hatt, hsel, hhost, hrepo, ha, hrf, hw]
    cases hb : env.build (worktreeForPrompt wt att.subdir)
        (mkPromptPlan feature repo prompt_file includeArg none max_bytes) with
    | error e => exact ⟨[], rfl⟩
    | ok payload =>
      dsimp only
      by_cases hp : pyStrip payload = ""
      · rw [if_pos hp]
        exact ⟨[], rfl⟩
      · rw [if_neg hp]
        cases env.pushFile ("/tmp/.sf_prompt." ++
            (slugOf feature ++ "." ++ slugOf repo ++ "." ++ slugOf llm) ++
            "." ++ env.uuidHex ++ ".txt") with
        | error e => exact ⟨_, rfl⟩
        | ok a =>
          cases env.tmuxDeliver
              (SessionDescriptor.mk feature repo llm).name with
          | error e => exact ⟨_, rfl⟩
          | ok b => exact ⟨_, rfl⟩

/-- Witness for C10 at concrete inputs: an omitted include selection
produces the `["README.md"]` default plan. -/
theorem send_prompt_default_include_witness :
    (mkPromptPlan "demo" "core" none none none none).includes =
      ["README.md"] ∧
    (mkPromptPlan "demo" "core" none none none none).excludes = [] ∧
    ∃ rest, (send_prompt witCfg witFeature "demo" "core" "claude" none none
        none none none witEnv).1 =
      SendAction.build (mkPromptPlan "demo" "core" none none none none) ::
        rest :=
  send_prompt_default_include witCfg witFeature "demo" "core" "claude" none
    none none none none witEnv witAtt rfl "h" rfl witHost rfl witRepoCfg rfl
    rfl rfl "/wt" rfl (Or.inl rfl) rfl

/-- C6: when every step up to prompt assembly succeeds and the assembled
payload is empty or whitespace-only, `send_prompt` fails with the distinct
"Prompt payload is empty" error, and the action trace shows no file push
and no tmux load/paste/send delivery. -/
theorem send_prompt_empty_payload (cfg : SfConfig)
    (feature_cfg : FeatureConfig) (feature repo llm : String)
    (prompt_file : Option String) (includeArg excludeArg : Option (List String))
    (max_bytes : Option Nat) (host : Option String) (env : SendEnv)
    (att : FeatureRepoAttachment)
    (hatt : feature_cfg.get_attachment repo = some att)
    (hn : String) (hsel : selectHost att host = .ok hn)
    (hc : HostConfig) (hhost : ensureHostCfg hn cfg.hosts = .ok hc)
    (rc : RepoConfig) (hrepo : ensureRepoCfg repo cfg.repos = .ok rc)
    (ha : env.ensureAnchor = .ok ()) (hrf : env.refreshBranch = .ok ())
    (wt : String) (hw : env.ensureWorktree = .ok wt)
    (payload : String)
    (hb : env.build (worktreeForPrompt wt att.subdir)
        (mkPromptPlan feature repo prompt_file includeArg excludeArg
          max_bytes) = .ok payload)
    (hempty : pyStrip payload = "") :
    send_prompt cfg feature_cfg feature repo llm prompt_file includeArg
        excludeArg max_bytes host env =
      ([SendAction.build (mkPromptPlan feature repo prompt_file includeArg
          excludeArg max_bytes)], .error "Prompt payload is empty") := by
  simp only [send_prompt, hatt, hsel, hhost, hrepo, ha, hrf, hw, hb]
  rw [if_pos hempty]

/-- Witness for C6: a whitespace-only payload is rejected before any push
or tmux delivery. -/
theorem send_prompt_empty_payload_witness :
    send_prompt witCfg witFeature "demo" "core" "claude" none none none none
        none witEnvEmpty =
      ([SendAction.build (mkPromptPlan "demo" "core" none none none none)],
       .error "Prompt payload is empty") :=
  send_prompt_empty_payload witCfg witFeature "demo" "core" "claude" none
    none none none none witEnvEmpty witAtt rfl "h" rfl witHost rfl witRepoCfg
    rfl rfl rfl "/wt" rfl "  \n " rfl (by decide)

/-! Helper lemmas for C5. -/

theorem syncHostStep_foldl_ok (cfg : SfConfig) (g : GitOracle)
    (repoKey rcName : String) (wt : String → String → String) :
    ∀ (hosts : List String) (acc : List SyncEntry),
      (∀ h ∈ hosts,
        (∃ hc, ensureHostCfg h cfg.hosts = .ok hc) ∧
        g.ensureAnchor h repoKey = .ok () ∧
        g.refreshBranch h repoKey = .ok () ∧
        g.ensureWorktree h repoKey = .ok (wt h repoKey)) →
      hosts.foldlM (syncHostStep cfg g repoKey rcName) acc =
        .ok (acc ++ hosts.map
          (fun h => SyncEntry.mk h rcName (wt h repoKey))) := by
  intro hosts
  induction hosts with
  | nil => intro acc _; simp; rfl
  | cons h hs ih =>
    intro acc hok
    obtain ⟨⟨hcv, hh⟩, hanc, hrf, hwk⟩ := hok h (by simp)
    rw [List.foldlM_cons]
    have hstep : syncHostStep cfg g repoKey rcName acc h =
        .ok (acc ++ [SyncEntry.mk h rcName (wt h repoKey)]) := by
      simp only [syncHostStep, hh, hanc, hrf, hwk]
      rfl
    rw [hstep]
    show hs.foldlM (syncHostStep cfg g repoKey rcName) _ = _
    rw [ih _ (fun x hx => hok x (by simp [hx]))]
    simp

theorem syncAttStep_foldl_ok (cfg : SfConfig) (g : GitOracle)
    (rc : String → RepoConfig) (wt : String → String → String) :
    ∀ (atts : List FeatureRepoAttachment) (acc : List SyncEntry),
      (∀ att ∈ atts,
        ensureRepoCfg att.repo cfg.repos = .ok (rc att.repo) ∧
        ∀ h ∈ att.hosts,
          (∃ hc, ensureHostCfg h cfg.hosts = .ok hc) ∧
          g.ensureAnchor h att.repo = .ok () ∧
          g.refreshBranch h att.repo = .ok () ∧
          g.ensureWorktree h att.repo = .ok (wt h att.repo)) →
      atts.foldlM (syncAttStep cfg g) acc =
        .ok (acc ++ atts.flatMap (fun att => att.hosts.map
          (fun h => SyncEntry.mk h (rc att.repo).name (wt h att.repo)))) := by
  intro atts
  induction atts with
  | nil => intro acc _; simp; rfl
  | cons att rest ih =>
    intro acc hok
    obtain ⟨hrc, hhosts⟩ := hok att (by simp)
    rw [List.foldlM_cons]
    have hstep : syncAttStep cfg g acc att =
        .ok (acc ++ att.hosts.map
          (fun h => SyncEntry.mk h (rc att.repo).name (wt h att.repo))) := by
      simp only [syncAttStep, hrc]
      rw [show (Except.ok (rc att.repo) >>= fun repo_cfg =>
          att.hosts.foldlM (syncHostStep cfg g att.repo repo_cfg.name) acc) =
          att.hosts.foldlM
            (syncHostStep cfg g att.repo (rc att.repo).name) acc from rfl]
      exact syncHostStep_foldl_ok cfg g att.repo (rc att.repo).name wt
        att.hosts acc hhosts
    rw [hstep]
    show rest.foldlM (syncAttStep cfg g) _ = _
    rw [ih _ (fun x hx => hok x (by simp [hx]))]
    simp

/-- C5: `sync_feature` raises the "no matching attachments" error iff the
(optionally repo-filtered) attachment list is empty; when all lookups and
git operations succeed it returns one summary entry per (host, repo) pair
in attachment-then-host declaration order; and a command failure on the
first pair aborts the whole run with that error (no entries produced). -/
theorem sync_feature_spec (cfg : SfConfig) (feature_cfg : FeatureConfig)
    (repoFilter : Option String) (g : GitOracle)
    (rc : String → RepoConfig) (wt : String → String → String)
    (hok : ∀ att ∈ filteredAttachments feature_cfg repoFilter,
      ensureRepoCfg att.repo cfg.repos = .ok (rc att.repo) ∧
      ∀ h ∈ att.hosts,
        (∃ hc, ensureHostCfg h cfg.hosts = .ok hc) ∧
        g.ensureAnchor h att.repo = .ok () ∧
        g.refreshBranch h att.repo = .ok () ∧
        g.ensureWorktree h att.repo = .ok (wt h att.repo)) :
    (filteredAttachments feature_cfg repoFilter = [] ↔
      sync_feature cfg feature_cfg repoFilter g =
        .error "No repo attachments found to sync") ∧
    (filteredAttachments feature_cfg repoFilter ≠ [] →
      sync_feature cfg feature_cfg repoFilter g =
        .ok ((filteredAttachments feature_cfg repoFilter).flatMap
          (fun att => att.hosts.map (fun h =>
            SyncEntry.mk h (rc att.repo).name (wt h att.repo))))) ∧
    (∀ (g2 : GitOracle) att rest h hs e,
      filteredAttachments feature_cfg repoFilter = att :: rest →
      att.hosts = h :: hs →
      (∃ rcv, ensureRepoCfg att.repo cfg.repos = .ok rcv) →
      (∃ hcv, ensureHostCfg h cfg.hosts = .ok hcv) →
      g2.ensureAnchor h att.repo = .error e →
      sync_feature cfg feature_cfg repoFilter g2 = .error e) := by
  have hsucc : filteredAttachments feature_cfg repoFilter ≠ [] →
      sync_feature cfg feature_cfg repoFilter g =
        .ok ((filteredAttachments feature_cfg repoFilter).flatMap
          (fun att => att.hosts.map (fun h =>
            SyncEntry.mk h (rc att.repo).name (wt h att.repo)))) := by
    intro hne
    simp only [sync_feature]
    rw [if_neg (by simpa [List.isEmpty_iff] using hne)]
    simpa using syncAttStep_foldl_ok cfg g rc wt
      (filteredAttachments feature_cfg repoFilter) [] hok
  refine ⟨⟨fun h0 => by simp [sync_feature, h0], fun herr => ?_⟩, hsucc, ?_⟩
  · by_cases h0 : filteredAttachments feature_cfg repoFilter = []
    · exact h0
    · rw [hsucc h0] at herr
      exact absurd herr (by simp)
  · rintro g2 att rest h hs e hfil hh ⟨rcv, hrcv⟩ ⟨hcv, hhcv⟩ hanc
    simp only [sync_feature, hfil]
    rw [if_neg (by simp)]
    rw [List.foldlM_cons]
    have hstep : syncAttStep cfg g2 [] att = .error e := by
      simp only [syncAttStep, hrcv, hh, List.foldlM_cons, syncHostStep, hhcv,
        hanc]
      rfl
    rw [hstep]
    rfl

/-- Witness for C5 at a concrete config: one attachment on one host yields
exactly one summary entry. -/
theorem sync_feature_spec_witness :
    sync_feature witCfg witFeature none witGit =
      .ok [SyncEntry.mk "h" "core" "/wt/h/core"] := by
  have h := (sync_feature_spec witCfg witFeature none witGit
    (fun _ => witRepoCfg) (fun h r => "/wt/" ++ h ++ "/" ++ r) ?hok).2.1 ?hne
  case hok =>
    intro att hatt
    have hatteq : att = witAtt := by
      simpa [filteredAttachments, witFeature] using hatt
    subst hatteq
    refine ⟨rfl, ?_⟩
    intro h hh
    have hheq : h = "h" := by simpa [witAtt] using hh
    subst hheq
    exact ⟨⟨witHost, rfl⟩, rfl, rfl, rfl⟩
  case hne => simp [filteredAttachments, witFeature, witAtt]
  rw [h]
  rfl

/-! Lemmas for C1: well-formed patterns never raise, and the candidate
loop keeps exactly the right-anchored matches. -/

/-- A pattern whose `PurePosixPath` parts are non-empty, so `match` does
not raise `ValueError`. -/
def patWf (pattern : String) : Bool :=
  !(fullParts pattern).isEmpty

theorem posixMatch_isSome (path pattern : String) (h : patWf pattern = true) :
    ∃ b, posixMatch path pattern = some b := by
  unfold posixMatch
  rw [if_neg (by simpa [patWf] using h)]
  split_ifs <;> exact ⟨_, rfl⟩

theorem anyMatchPy_spec (path : String) (pats : List String)
    (hwf : ∀ p ∈ pats, patWf p = true) :
    (anyMatchPy path pats = some true ↔
      ∃ p ∈ pats, posixMatch path p = some true) ∧
    (anyMatchPy path pats = some false ↔
      ∀ p ∈ pats, posixMatch path p = some false) := by
  induction pats with
  | nil => simp [anyMatchPy]
  | cons p ps ih =>
    obtain ⟨b, hb⟩ := posixMatch_isSome path p (hwf p (by simp))
    have ihh := ih (fun q hq => hwf q (by simp [hq]))
    cases b
    · have heq : anyMatchPy path (p :: ps) = anyMatchPy path ps := by
        simp [anyMatchPy, hb]
      constructor
      · rw [heq, ihh.1]
        constructor
        · rintro ⟨q, hq, hqt⟩
          exact ⟨q, by simp [hq], hqt⟩
        · rintro ⟨q, hq, hqt⟩
          rcases List.mem_cons.mp hq with rfl | hq2
          · rw [hb] at hqt
            exact absurd hqt (by simp)
          · exact ⟨q, hq2, hqt⟩
      · rw [heq, ihh.2]
        constructor
        · intro hall q hq
          rcases List.mem_cons.mp hq with rfl | hq2
          · exact hb
          · exact hall q hq2
        · intro hall q hq
          exact hall q (by simp [hq])
    · have heq : anyMatchPy path (p :: ps) = some true := by
        simp [anyMatchPy, hb]
      constructor
      · rw [heq]
        exact ⟨fun _ => ⟨p, by simp, hb⟩, fun _ => rfl⟩
      · rw [heq]
        constructor
        · intro hcontra
          exact absurd hcontra (by simp)
        · intro hall
          have := hall p (by simp)
          rw [hb] at this
          exact absurd this (by simp)

theorem anyMatchPy_isSome (path : String) (pats : List String)
    (hwf : ∀ p ∈ pats, patWf p = true) :
    ∃ b, anyMatchPy path pats = some b := by
  induction pats with
  | nil => exact ⟨false, rfl⟩
  | cons p ps ih =>
    obtain ⟨b, hb⟩ := posixMatch_isSome path p (hwf p (by simp))
    cases b
    · obtain ⟨b2, hb2⟩ := ih (fun q hq => hwf q (by simp [hq]))
      exact ⟨b2, by simp [anyMatchPy, hb, hb2]⟩
    · exact ⟨true, by simp [anyMatchPy, hb]⟩

theorem collectCandidatesAux_spec (includes excludes : List String)
    (hwfI : ∀ p ∈ includes, patWf p = true)
    (hwfE : ∀ p ∈ excludes, patWf p = true) :
    ∀ listing, ∃ l, collectCandidatesAux includes excludes listing = some l ∧
      ∀ rel, rel ∈ l ↔
        (∃ raw ∈ listing, stripDotSlash raw = rel) ∧ rel ≠ "" ∧
        anyMatchPy rel includes = some true ∧
        anyMatchPy rel excludes = some false := by
  intro listing
  induction listing with
  | nil =>
    refine ⟨[], rfl, fun rel => ?_⟩
    simp
  | cons raw rest ih =>
    obtain ⟨l, hl, hmem⟩ := ih
    by_cases h0 : stripDotSlash raw = ""
    · refine ⟨l, by simp [collectCandidatesAux, h0, hl], fun rel => ?_⟩
      rw [hmem rel]
      constructor
      · rintro ⟨⟨raw2, hraw2, hstrip⟩, hne, hi, he⟩
        exact ⟨⟨raw2, by simp [hraw2], hstrip⟩, hne, hi, he⟩
      · rintro ⟨⟨raw2, hraw2, hstrip⟩, hne, hi, he⟩
        rcases List.mem_cons.mp hraw2 with rfl | h2
        · exact absurd (hstrip.symm.trans h0) hne
        · exact ⟨⟨raw2, h2, hstrip⟩, hne, hi, he⟩
    · obtain ⟨bI, hI⟩ :=
        anyMatchPy_isSome (stripDotSlash raw) includes hwfI
      cases bI
      · refine ⟨l, by simp [collectCandidatesAux, h0, hI, hl], fun rel => ?_⟩
        rw [hmem rel]
        constructor
        · rintro ⟨⟨raw2, hraw2, hstrip⟩, hne, hi, he⟩
          exact ⟨⟨raw2, by simp [hraw2], hstrip⟩, hne, hi, he⟩
        · rintro ⟨⟨raw2, hraw2, hstrip⟩, hne, hi, he⟩
          rcases List.mem_cons.mp hraw2 with rfl | h2
          · rw [hstrip] at hI
            rw [hI] at hi
            exact absurd hi (by simp)
          · exact ⟨⟨raw2, h2, hstrip⟩, hne, hi, he⟩
      · obtain ⟨bE, hE⟩ :=
          anyMatchPy_isSome (stripDotSlash raw) excludes hwfE
        cases bE
        · refine ⟨stripDotSlash raw :: l,
            by simp [collectCandidatesAux, h0, hI, hE, hl], fun rel => ?_⟩
          constructor
          · intro hrel
            rcases List.mem_cons.mp hrel with rfl | h2
            · exact ⟨⟨raw, by simp, rfl⟩, h0, hI, hE⟩
            · obtain ⟨⟨raw2, hraw2, hstrip⟩, hne, hi, he⟩ :=
                (hmem rel).mp h2
              exact ⟨⟨raw2, by simp [hraw2], hstrip⟩, hne, hi, he⟩
          · rintro ⟨⟨raw2, hraw2, hstrip⟩, hne, hi, he⟩
            rcases List.mem_cons.mp hraw2 with rfl | h2
            · exact List.mem_cons.mpr (Or.inl hstrip.symm)
            · exact List.mem_cons.mpr (Or.inr
                ((hmem rel).mpr ⟨⟨raw2, h2, hstrip⟩, hne, hi, he⟩))
        · refine ⟨l, by simp [collectCandidatesAux, h0, hI, hE, hl],
            fun rel => ?_⟩
          rw [hmem rel]
          constructor
          · rintro ⟨⟨raw2, hraw2, hstrip⟩, hne, hi, he⟩
            exact ⟨⟨raw2, by simp [hraw2], hstrip⟩, hne, hi, he⟩
          · rintro ⟨⟨raw2, hraw2, hstrip⟩, hne, hi, he⟩
            rcases List.mem_cons.mp hraw2 with rfl | h2
            · rw [hstrip] at hE
              rw [hE] at he
              exact absurd he (by simp)
            · exact ⟨⟨raw2, h2, hstrip⟩, hne, hi, he⟩

/-- C1 counterexample: with the spec's example file set and include
`["*.md"]`, the code keeps `sub/c.md` as well — `PurePosixPath.match`
matches a relative pattern against the trailing path segments, so the
`**`-free top-level pattern `*.md` does match the separator-containing
path `sub/c.md`, contrary to the claim. -/
theorem prompt_glob_counterexample :
    collectCandidates ["./a.md", "./b.txt", "./sub/c.md"] ["*.md"] [] =
      some ["a.md", "sub/c.md"] ∧
    ¬ ['*', '*'] <:+: "*.md".data ∧
    '/' ∈ "sub/c.md".data := by
  refine ⟨by decide, by decide, by decide⟩

/-- C1 (amended): with patterns whose part lists are non-empty (so
`PurePosixPath.match` does not raise), a candidate file is kept iff its
worktree-relative path is in the normalized listing and matches at least
one include pattern and no exclude pattern, where matching is Python
`PurePosixPath.match`: per-segment from the right, so a relative pattern
matches when its segments match the trailing segments of the path (a
top-level `*.md` does match `sub/c.md`). -/
theorem collect_candidates_spec (listing includes excludes : List String)
    (hwfI : ∀ p ∈ includes, patWf p = true)
    (hwfE : ∀ p ∈ excludes, patWf p = true) :
    ∃ l, collectCandidates listing includes excludes = some l ∧
      ∀ rel, rel ∈ l ↔
        (∃ raw ∈ listing, stripDotSlash raw = rel) ∧ rel ≠ "" ∧
        (∃ pat ∈ includes, posixMatch rel pat = some true) ∧
        (∀ pat ∈ excludes, posixMatch rel pat = some false) := by
  obtain ⟨l0, hl0, hmem⟩ :=
    collectCandidatesAux_spec includes excludes hwfI hwfE listing
  refine ⟨List.insertionSort (fun a b => cpLe a.data b.data = true) l0,
    by simp [collectCandidates, hl0], fun rel => ?_⟩
  rw [(List.perm_insertionSort (fun a b => cpLe a.data b.data = true) l0).mem_iff,
    hmem rel, (anyMatchPy_spec rel includes hwfI).1,
    (anyMatchPy_spec rel excludes hwfE).2]

/-- Witness for C1 (amended) at the spec's example file set. -/
theorem collect_candidates_spec_witness :
    ∃ l, collectCandidates ["./a.md", "./b.txt", "./sub/c.md"] ["*.md"] [] =
        some l ∧
      ∀ rel, rel ∈ l ↔
        (∃ raw ∈ ["./a.md", "./b.txt", "./sub/c.md"],
          stripDotSlash raw = rel) ∧ rel ≠ "" ∧
        (∃ pat ∈ ["*.md"], posixMatch rel pat = some true) ∧
        (∀ pat ∈ ([] : List String), posixMatch rel pat = some false) :=
  collect_candidates_spec ["./a.md", "./b.txt", "./sub/c.md"] ["*.md"] []
    (by decide) (by decide)

/-! Lemmas for C2: decoding a truncated encoding yields a code-point
prefix whose encoding fits the byte budget. -/

theorem utf8DecodeIgnore_nil : utf8DecodeIgnore [] = [] := rfl

theorem utf8DecodeIgnore_cons_some (b c : Nat) (rest rest2 : List Nat)
    (h : utf8Step b rest = some (c, rest2)) :
    utf8DecodeIgnore (b :: rest) = c :: utf8DecodeIgnore rest2 := by
  unfold utf8DecodeIgnore
  simp only [List.length_cons, utf8DecodeIgnoreFuel, h]
  rw [utf8DecodeIgnoreFuel_congr rest.length rest2.length rest2
    (utf8Step_length b rest c rest2 h) (Nat.le_refl _)]

theorem utf8DecodeIgnore_cons_none (b : Nat) (rest : List Nat)
    (h : utf8Step b rest = none) :
    utf8DecodeIgnore (b :: rest) = utf8DecodeIgnore rest := by
  unfold utf8DecodeIgnore
  simp only [List.length_cons, utf8DecodeIgnoreFuel, h]

theorem utf8Step_ascii (b : Nat) (h : b < 0x80) (rest : List Nat) :
    utf8Step b rest = some (b, rest) := by
  unfold utf8Step
  rw [if_pos h]

theorem utf8Step_two (b b1 : Nat) (h1 : 0xc2 ≤ b) (h2 : b ≤ 0xdf)
    (h3 : isCont b1 = true) (rest : List Nat) :
    utf8Step b (b1 :: rest) =
      some ((b - 0xc0) * 64 + (b1 - 0x80), rest) := by
  unfold utf8Step
  rw [if_neg (by omega), if_pos ⟨h1, h2⟩]
  show (if isCont b1 = true then some ((b - 0xc0) * 64 + (b1 - 0x80), rest)
      else none) = some ((b - 0xc0) * 64 + (b1 - 0x80), rest)
  rw [if_pos h3]

theorem utf8Step_three (b b1 b2 : Nat) (h1 : 0xe0 ≤ b) (h2 : b ≤ 0xef)
    (h3 : cont3ok b b1 = true) (h4 : isCont b2 = true) (rest : List Nat) :
    utf8Step b (b1 :: b2 :: rest) =
      some ((b - 0xe0) * 4096 + (b1 - 0x80) * 64 + (b2 - 0x80), rest) := by
  unfold utf8Step
  rw [if_neg (by omega), if_neg (by omega), if_pos ⟨h1, h2⟩]
  show (if (cont3ok b b1 && isCont b2) = true then
      some ((b - 0xe0) * 4096 + (b1 - 0x80) * 64 + (b2 - 0x80), rest)
    else none) =
    some ((b - 0xe0) * 4096 + (b1 - 0x80) * 64 + (b2 - 0x80), rest)
  rw [if_pos (by rw [h3, h4]; rfl)]

theorem utf8Step_four (b b1 b2 b3 : Nat) (h1 : 0xf0 ≤ b) (h2 : b ≤ 0xf4)
    (h3 : cont4ok b b1 = true) (h4 : isCont b2 = true)
    (h5 : isCont b3 = true) (rest : List Nat) :
    utf8Step b (b1 :: b2 :: b3 :: rest) =
      some ((b - 0xf0) * 262144 + (b1 - 0x80) * 4096 + (b2 - 0x80) * 64 +
        (b3 - 0x80), rest) := by
  unfold utf8Step
  rw [if_neg (by omega), if_neg (by omega), if_neg (by omega),
    if_pos ⟨h1, h2⟩]
  show (if (cont4ok b b1 && isCont b2 && isCont b3) = true then
      some ((b - 0xf0) * 262144 + (b1 - 0x80) * 4096 + (b2 - 0x80) * 64 +
        (b3 - 0x80), rest)
    else none) =
    some ((b - 0xf0) * 262144 + (b1 - 0x80) * 4096 + (b2 - 0x80) * 64 +
      (b3 - 0x80), rest)
  rw [if_pos (by rw [h3, h4, h5]; rfl)]

theorem utf8Step_cont_skip (b : Nat) (h1 : 0x80 ≤ b) (h2 : b ≤ 0xbf)
    (rest : List Nat) : utf8Step b rest = none := by
  unfold utf8Step
  rw [if_neg (by omega), if_neg (by omega), if_neg (by omega),
    if_neg (by omega)]

theorem utf8Step_two_end (b : Nat) (h1 : 0xc2 ≤ b) (h2 : b ≤ 0xdf) :
    utf8Step b [] = none := by
  unfold utf8Step
  rw [if_neg (by omega), if_pos ⟨h1, h2⟩]

theorem utf8Step_three_end0 (b : Nat) (h1 : 0xe0 ≤ b) (h2 : b ≤ 0xef) :
    utf8Step b [] = none := by
  unfold utf8Step
  rw [if_neg (by omega), if_neg (by omega), if_pos ⟨h1, h2⟩]

theorem utf8Step_three_end1 (b x : Nat) (h1 : 0xe0 ≤ b) (h2 : b ≤ 0xef) :
    utf8Step b [x] = none := by
  unfold utf8Step
  rw [if_neg (by omega), if_neg (by omega), if_pos ⟨h1, h2⟩]

theorem utf8Step_four_end0 (b : Nat) (h1 : 0xf0 ≤ b) (h2 : b ≤ 0xf4) :
    utf8Step b [] = none := by
  unfold utf8Step
  rw [if_neg (by omega), if_neg (by omega), if_neg (by omega),
    if_pos ⟨h1, h2⟩]

theorem utf8Step_four_end1 (b x : Nat) (h1 : 0xf0 ≤ b) (h2 : b ≤ 0xf4) :
    utf8Step b [x] = none := by
  unfold utf8Step
  rw [if_neg (by omega), if_neg (by omega), if_neg (by omega),
    if_pos ⟨h1, h2⟩]

theorem utf8Step_four_end2 (b x y : Nat) (h1 : 0xf0 ≤ b) (h2 : b ≤ 0xf4) :
    utf8Step b [x, y] = none := by
  unfold utf8Step
  rw [if_neg (by omega), if_neg (by omega), if_neg (by omega),
    if_pos ⟨h1, h2⟩]

theorem utf8EncodeChar_one (c : Nat) (h : c < 0x80) :
    utf8EncodeChar c = [c] := by
  unfold utf8EncodeChar
  rw [if_pos h]

theorem utf8EncodeChar_two (c : Nat) (h1 : 0x80 ≤ c) (h2 : c < 0x800) :
    utf8EncodeChar c = [0xc0 + c / 64, 0x80 + c % 64] := by
  unfold utf8EncodeChar
  rw [if_neg (by omega), if_pos h2]

theorem utf8EncodeChar_three (c : Nat) (h1 : 0x800 ≤ c) (h2 : c < 0x10000) :
    utf8EncodeChar c =
      [0xe0 + c / 4096, 0x80 + c / 64 % 64, 0x80 + c % 64] := by
  unfold utf8EncodeChar
  rw [if_neg (by omega), if_neg (by omega), if_pos h2]

theorem utf8EncodeChar_four (c : Nat) (h1 : 0x10000 ≤ c) (h2 : c < 0x110000) :
    utf8EncodeChar c =
      [0xf0 + c / 262144, 0x80 + c / 4096 % 64, 0x80 + c / 64 % 64,
        0x80 + c % 64] := by
  unfold utf8EncodeChar
  rw [if_neg (by omega), if_neg (by omega), if_neg (by omega)]

theorem isCont_mod64 (x : Nat) : isCont (0x80 + x % 64) = true := by
  simp only [isCont, decide_eq_true_eq]
  omega

theorem cont3ok_encode (c : Nat) (h1 : 0x800 ≤ c) (h2 : c < 0x10000)
    (hsur : c < 0xd800 ∨ 0xe000 ≤ c) :
    cont3ok (0xe0 + c / 4096) (0x80 + c / 64 % 64) = true := by
  unfold cont3ok
  by_cases h0 : c / 4096 = 0
  · rw [if_pos (by simp [h0])]
    simp only [decide_eq_true_eq]
    omega
  · by_cases h13 : c / 4096 = 13
    · rw [if_neg (by simp only [beq_iff_eq]; omega),
        if_pos (by simp [h13])]
      simp only [decide_eq_true_eq]
      omega
    · rw [if_neg (by simp only [beq_iff_eq]; omega),
        if_neg (by simp only [beq_iff_eq]; omega)]
      exact isCont_mod64 _

theorem cont4ok_encode (c : Nat) (h1 : 0x10000 ≤ c) (h2 : c < 0x110000) :
    cont4ok (0xf0 + c / 262144) (0x80 + c / 4096 % 64) = true := by
  unfold cont4ok
  by_cases h0 : c / 262144 = 0
  · rw [if_pos (by simp [h0])]
    simp only [decide_eq_true_eq]
    omega
  · by_cases h4 : c / 262144 = 4
    · rw [if_neg (by simp only [beq_iff_eq]; omega),
        if_pos (by simp [h4])]
      simp only [decide_eq_true_eq]
      omega
    · rw [if_neg (by simp only [beq_iff_eq]; omega),
        if_neg (by simp only [beq_iff_eq]; omega)]
      exact isCont_mod64 _

set_option maxRecDepth 8000 in
/-- Decoding a full UTF-8 sequence at the head recovers the code point. -/
theorem utf8DecodeIgnore_encodeChar (c : Nat) (hs : IsScalar c)
    (bs : List Nat) :
    utf8DecodeIgnore (utf8EncodeChar c ++ bs) = c :: utf8DecodeIgnore bs := by
  by_cases h1 : c < 0x80
  · rw [utf8EncodeChar_one c h1, List.singleton_append,
      utf8DecodeIgnore_cons_some c c bs bs (utf8Step_ascii c h1 bs)]
  · by_cases h2 : c < 0x800
    · rw [utf8EncodeChar_two c (by omega) h2, List.cons_append,
        List.singleton_append,
        utf8DecodeIgnore_cons_some _ _ _ _
          (utf8Step_two _ _ (by omega) (by omega) (isCont_mod64 c) bs)]
      congr 1
      omega
    · by_cases h3 : c < 0x10000
      · have hsur : c < 0xd800 ∨ 0xe000 ≤ c := by
          rcases hs with h | ⟨h, _⟩
          · exact Or.inl h
          · exact Or.inr h
        rw [utf8EncodeChar_three c (by omega) h3, List.cons_append,
          List.cons_append, List.singleton_append,
          utf8DecodeIgnore_cons_some _ _ _ _
            (utf8Step_three _ _ _ (by omega) (by omega)
              (cont3ok_encode c (by omega) h3 hsur) (isCont_mod64 c) bs)]
        congr 1
        omega
      · have h4 : c < 0x110000 := by
          rcases hs with h | ⟨_, h⟩
          · omega
          · exact h
        rw [utf8EncodeChar_four c (by omega) h4, List.cons_append,
          List.cons_append, List.cons_append, List.singleton_append,
          utf8DecodeIgnore_cons_some _ _ _ _
            (utf8Step_four _ _ _ _ (by omega) (by omega)
              (cont4ok_encode c (by omega) h4) (isCont_mod64 _)
              (isCont_mod64 c) bs)]
        congr 1
        omega

/-- A run of continuation bytes decodes to nothing under `ignore`. -/
theorem utf8DecodeIgnore_conts (l : List Nat)
    (h : ∀ x ∈ l, 0x80 ≤ x ∧ x ≤ 0xbf) : utf8DecodeIgnore l = [] := by
  induction l with
  | nil => rfl
  | cons b rest ih =>
    obtain ⟨hb1, hb2⟩ := h b (by simp)
    rw [utf8DecodeIgnore_cons_none b rest (utf8Step_cont_skip b hb1 hb2 rest)]
    exact ih (fun x hx => h x (by simp [hx]))

set_option maxRecDepth 8000 in
/-- A proper non-empty prefix of one character's encoding — a split
multi-byte character — decodes to nothing under `ignore`. -/
theorem utf8DecodeIgnore_encodeChar_partial (c k : Nat) (hs : IsScalar c)
    (hk0 : 0 < k) (hk : k < (utf8EncodeChar c).length) :
    utf8DecodeIgnore ((utf8EncodeChar c).take k) = [] := by
  by_cases h1 : c < 0x80
  · rw [utf8EncodeChar_one c h1] at hk
    simp at hk
    omega
  · by_cases h2 : c < 0x800
    · rw [utf8EncodeChar_two c (by omega) h2] at hk ⊢
      have hk1 : k = 1 := by simp at hk; omega
      subst hk1
      show utf8DecodeIgnore [0xc0 + c / 64] = []
      rw [utf8DecodeIgnore_cons_none _ _
        (utf8Step_two_end _ (by omega) (by omega))]
      rfl
    · by_cases h3 : c < 0x10000
      · rw [utf8EncodeChar_three c (by omega) h3] at hk ⊢
        have hk12 : k = 1 ∨ k = 2 := by simp at hk; omega
        rcases hk12 with rfl | rfl
        · show utf8DecodeIgnore [0xe0 + c / 4096] = []
          rw [utf8DecodeIgnore_cons_none _ _
            (utf8Step_three_end0 _ (by omega) (by omega))]
          rfl
        · show utf8DecodeIgnore [0xe0 + c / 4096, 0x80 + c / 64 % 64] = []
          rw [utf8DecodeIgnore_cons_none _ _
            (utf8Step_three_end1 _ _ (by omega) (by omega))]
          exact utf8DecodeIgnore_conts _ (by
            intro x hx
            simp at hx
            subst hx
            omega)
      · have h4 : c < 0x110000 := by
          rcases hs with h | ⟨_, h⟩
          · omega
          · exact h
        rw [utf8EncodeChar_four c (by omega) h4] at hk ⊢
        have hk123 : k = 1 ∨ k = 2 ∨ k = 3 := by simp at hk; omega
        rcases hk123 with rfl | rfl | rfl
        · show utf8DecodeIgnore [0xf0 + c / 262144] = []
          rw [utf8DecodeIgnore_cons_none _ _
            (utf8Step_four_end0 _ (by omega) (by omega))]
          rfl
        · show utf8DecodeIgnore
            [0xf0 + c / 262144, 0x80 + c / 4096 % 64] = []
          rw [utf8DecodeIgnore_cons_none _ _
            (utf8Step_four_end1 _ _ (by omega) (by omega))]
          exact utf8DecodeIgnore_conts _ (by
            intro x hx
            simp at hx
            subst hx
            omega)
        · show utf8DecodeIgnore
            [0xf0 + c / 262144, 0x80 + c / 4096 % 64, 0x80 + c / 64 % 64] = []
          rw [utf8DecodeIgnore_cons_none _ _
            (utf8Step_four_end2 _ _ _ (by omega) (by omega))]
          exact utf8DecodeIgnore_conts _ (by
            intro x hx
            simp at hx
            rcases hx with rfl | rfl <;> omega)

/-- Lenient decoding of a byte-truncated encoding yields a code-point
prefix whose own encoding fits in the byte budget. -/
theorem utf8DecodeIgnore_encode_take :
    ∀ (cps : List Nat), (∀ c ∈ cps, IsScalar c) → ∀ k,
      ∃ m, utf8DecodeIgnore ((utf8Encode cps).take k) = cps.take m ∧
        (utf8Encode (cps.take m)).length ≤ k := by
  intro cps
  induction cps with
  | nil =>
    intro _ k
    exact ⟨0, by simp [utf8Encode, utf8DecodeIgnore_nil],
      by simp [utf8Encode]⟩
  | cons c cs ih =>
    intro hs k
    have hc := hs c (by simp)
    have hcs : ∀ x ∈ cs, IsScalar x := fun x hx => hs x (by simp [hx])
    have henc : utf8Encode (c :: cs) = utf8EncodeChar c ++ utf8Encode cs := by
      simp [utf8Encode]
    by_cases hkL : (utf8EncodeChar c).length ≤ k
    · obtain ⟨m, hm, hlen⟩ := ih hcs (k - (utf8EncodeChar c).length)
      refine ⟨m + 1, ?_, ?_⟩
      · rw [henc, List.take_append_eq_append_take,
          List.take_of_length_le hkL, utf8DecodeIgnore_encodeChar c hc, hm,
          List.take_succ_cons]
      · rw [List.take_succ_cons]
        have hsplit : utf8Encode (c :: cs.take m) =
            utf8EncodeChar c ++ utf8Encode (cs.take m) := by
          simp [utf8Encode]
        rw [hsplit, List.length_append]
        omega
    · push_neg at hkL
      by_cases hk0 : k = 0
      · subst hk0
        exact ⟨0, by simp [utf8DecodeIgnore_nil], by simp [utf8Encode]⟩
      · refine ⟨0, ?_, by simp [utf8Encode]⟩
        rw [henc, List.take_append_of_le_length (by omega)]
        exact utf8DecodeIgnore_encodeChar_partial c k hc (by omega) hkL

/-- C2: for every scalar content string and byte cap, if the UTF-8
encoding exceeds the cap, the result is a genuine code-point prefix of the
content — whose encoding is at most `maxBytes` bytes, any split trailing
multi-byte character having been dropped by the lenient decode, which by
construction cannot fail — followed by the fixed truncation marker; if the
encoding fits, the content is returned unchanged. -/
theorem truncate_content_spec (content : List Nat) (mb : Nat)
    (hs : ∀ c ∈ content, IsScalar c) :
    ((utf8Encode content).length ≤ mb →
      truncateContent content (some mb) = content) ∧
    (mb < (utf8Encode content).length →
      ∃ m, truncateContent content (some mb) =
          content.take m ++ truncationMarker ∧
        (utf8Encode (content.take m)).length ≤ mb) := by
  constructor
  · intro h
    simp [truncateContent, h]
  · intro h
    obtain ⟨m, hm, hlen⟩ := utf8DecodeIgnore_encode_take content hs mb
    refine ⟨m, ?_, hlen⟩
    simp only [truncateContent]
    rw [if_neg (by omega), hm]

/-- Witness for C2: a four-byte payload with cap 2 cuts the euro sign in
half; the decoded prefix is just `"A"` and the marker follows; with cap 6
the content fits and is unchanged. -/
theorem truncate_content_spec_witness :
    truncateContent [0x41, 0x20ac] (some 6) = [0x41, 0x20ac] ∧
    ∃ m, truncateContent [0x41, 0x20ac] (some 2) =
        ([0x41, 0x20ac].take m) ++ truncationMarker ∧
      (utf8Encode ([0x41, 0x20ac].take m)).length ≤ 2 :=
  ⟨(truncate_content_spec [0x41, 0x20ac] 6 (by decide)).1 (by decide),
   (truncate_content_spec [0x41, 0x20ac] 2 (by decide)).2 (by decide)⟩

end SessionForge

